import Mathlib

/-!
docker-image-policy-plugin: policy compilation and metrics aggregation.

A shallow embedding of `main.go`:

* `readConfig` builds the compiled white- and blacklist from the decoded
  configuration, calling `regexp.Compile` on each pattern in order.
* `metricsCounter` owns the counter map `metrics`: it seeds six labels with
  zero and then adds every event it receives from `metricsChan`.
* `metricsHandler` writes the counter map as text.

Go's `regexp` package is outside the repository, so `regexp.Compile` and
`(*Regexp).MatchString` are parameters of the embedding.  Go's `uint` is 32 or
64 bits wide depending on the platform; the width `bits` is a parameter as
well and additions wrap modulo `2 ^ bits`.
-/

namespace ImagePolicy

/-! ## Go maps of type `map[string]uint` -/

/-- A Go `map[string]uint`, kept as the list of its entries.  Keys of a real
map are pairwise distinct; the order of the list stands for the order in which
a `range` statement visits the entries, which Go leaves unspecified. -/
abbrev GoMap := List (String × Nat)

/-- The two-valued read `v, ok := m[k]`. -/
def mapLookup : GoMap → String → Option Nat
  | [], _ => none
  | (k', v) :: t, k => if k' = k then some v else mapLookup t k

/-- The plain read `m[k]`: the zero value when the key is absent. -/
def mapGet (m : GoMap) (k : String) : Nat :=
  (mapLookup m k).getD 0

/-- The assignment `m[k] = v`: overwrite an entry or add a new one. -/
def mapSet : GoMap → String → Nat → GoMap
  | [], k, v => [(k, v)]
  | (k', v') :: t, k, v => if k' = k then (k, v) :: t else (k', v') :: mapSet t k v

/-- The keys of a map, in entry order. -/
def mapKeys (m : GoMap) : List String :=
  m.map Prod.fst

/-- Addition on Go's `uint` of width `bits`: it wraps around. -/
def uintAdd (bits a b : Nat) : Nat :=
  (a + b) % 2 ^ bits

/-! ## metricsCounter -/

/-- Label of the `allow` counter. -/
def labelAllow : String := "docker_image_policy\x7bstate=\"allow\"\x7d"
/-- Label of the `blacklist` counter. -/
def labelBlacklist : String := "docker_image_policy\x7bstate=\"blacklist\"\x7d"
/-- Label of the `block` counter. -/
def labelBlock : String := "docker_image_policy\x7bstate=\"block\"\x7d"
/-- Label of the `query_err` counter. -/
def labelQueryErr : String := "docker_image_policy\x7bstate=\"query_err\"\x7d"
/-- Label of the `uri_err` counter. -/
def labelUriErr : String := "docker_image_policy\x7bstate=\"uri_err\"\x7d"
/-- Label of the `whitelist` counter. -/
def labelWhitelist : String := "docker_image_policy\x7bstate=\"whitelist\"\x7d"

/-- The six labels seeded by `metricsCounter`, in the order of the source. -/
def knownLabels : List String :=
  [labelAllow, labelBlacklist, labelBlock, labelQueryErr, labelUriErr, labelWhitelist]

/-- The `// initialize` block of `metricsCounter`: `make` followed by six
assignments of zero. -/
def metricsInit : GoMap :=
  mapSet (mapSet (mapSet (mapSet (mapSet (mapSet [] labelAllow 0) labelBlacklist 0)
    labelBlock 0) labelQueryErr 0) labelUriErr 0) labelWhitelist 0

/-- The inner loop `for key, value := range metric { metrics[key] += value }`.
The event `metric` is given as the sequence of entries the `range` visits. -/
def applyMetric (bits : Nat) (metrics : GoMap) (metric : GoMap) : GoMap :=
  metric.foldl (fun m kv => mapSet m kv.1 (uintAdd bits (mapGet m kv.1) kv.2)) metrics

/-- The `// update` loop of `metricsCounter` run on the events received from
`metricsChan`, oldest first. -/
def metricsLoop (bits : Nat) (metrics : GoMap) (events : List GoMap) : GoMap :=
  events.foldl (applyMetric bits) metrics

/-- The function `metricsCounter`: initialise, then process the events. -/
def metricsCounter (bits : Nat) (events : List GoMap) : GoMap :=
  metricsLoop bits metricsInit events

/-! ## metricsHandler -/

/-- The call `fmt.Fprintln(w, s)` on the response writer `w`, kept as the text
written so far. -/
def Fprintln (w s : String) : String :=
  w ++ s ++ "\n"

/-- The line `"<key> <value>\n"` produced by the format `"%s %d\n"`: the value
is an unsigned integer and is printed in decimal. -/
def entryLine (kv : String × Nat) : String :=
  kv.1 ++ " " ++ Nat.repr kv.2 ++ "\n"

/-- The call `fmt.Fprintf(w, "%s %d\n", key, value)`. -/
def Fprintf (w : String) (key : String) (value : Nat) : String :=
  w ++ entryLine (key, value)

/-- The function `metricsHandler` once `metricsWg.Wait()` has returned: one
comment line, then the loop over `metrics`.  `visit` is the sequence of entries
of `metrics` in the order the `range` statement visits them. -/
def metricsHandler (w : String) (visit : GoMap) : String :=
  visit.foldl (fun out kv => Fprintf out kv.1 kv.2) (Fprintln w "# Prometheus metrics.")

/-! ## readConfig -/

/-- The type `Config`. -/
structure Config where
  /-- Field `Whitelist`. -/
  Whitelist : List String
  /-- Field `Blacklist`. -/
  Blacklist : List String
  /-- Field `DefaultAllow`. -/
  DefaultAllow : Bool
deriving DecidableEq, Repr

/-- The globals `readConfig` writes; `Re` stands for `*regexp.Regexp`. -/
structure Globals (Re : Type) where
  /-- Global `reWhitelist`. -/
  reWhitelist : List Re
  /-- Global `reBlacklist`. -/
  reBlacklist : List Re
  /-- Global `configuration`. -/
  configuration : Config

/-- What a call of `readConfig` leaves behind: the globals, the arguments of
the calls of `regexp.Compile` it made (in call order) and the returned `error`
(`none` for `nil`). -/
structure Outcome (Re E : Type) where
  /-- The globals after the call. -/
  globals : Globals Re
  /-- The pattern strings handed to `regexp.Compile`, in call order. -/
  compiled : List String
  /-- The returned error. -/
  err : Option E

/-- One of the two loops `for _, v := range patterns { re, err := regexp.Compile(v);
if err != nil { return err }; list = append(list, re) }`.  It returns the list,
the log of compile calls and the error that ended the loop early, if any. -/
def compileAll {Re E : Type} (compile : String → Except E Re) :
    List String → List Re → List String → List Re × List String × Option E
  | [], list, log => (list, log, none)
  | v :: vs, list, log =>
    match compile v with
    | .error err => (list, log ++ [v], some err)
    | .ok re => compileAll compile vs (list ++ [re]) (log ++ [v])

/-- The function `readConfig`.  `file` is what `os.Open` followed by
`decoder.Decode(&configuration)` delivers: an error, or the decoded
configuration. -/
def readConfig {Re E : Type} (compile : String → Except E Re) (file : Except E Config)
    (g : Globals Re) : Outcome Re E :=
  match file with
  | .error err => ⟨g, [], some err⟩
  | .ok cfg =>
    match compileAll compile cfg.Whitelist g.reWhitelist [] with
    | (wl, log, some err) => ⟨⟨wl, g.reBlacklist, cfg⟩, log, some err⟩
    | (wl, log, none) =>
      match compileAll compile cfg.Blacklist g.reBlacklist log with
      | (bl, log', some err) => ⟨⟨wl, bl, cfg⟩, log', some err⟩
      | (bl, log', none) => ⟨⟨wl, bl, cfg⟩, log', none⟩

/-- Whether `regexp.Compile` accepts the pattern `v`. -/
def compiles {Re E : Type} (compile : String → Except E Re) (v : String) : Bool :=
  match compile v with
  | .ok _ => true
  | .error _ => false

/-- The globals at program start: both lists `nil`, the configuration zero. -/
def initialGlobals (Re : Type) : Globals Re :=
  ⟨[], [], ⟨[], [], false⟩⟩

/-- A stand-in for `regexp.Compile`, used only to run the embedding on the
concrete configurations below: it rejects the unbalanced pattern `"("` with the
code `missing closing )`, as `regexp.Compile` does, and represents the compiled
form of any other pattern by its source text.  The other patterns it is applied
to (`nginx`, `alpine`, `latest`, `^library/nginx:.*$`) are all accepted by
`regexp.Compile`. -/
def sampleCompile (v : String) : Except String String :=
  if v = "(" then .error "missing closing )" else .ok v

/-- A stand-in for `MatchString`, used only on patterns without
metacharacters (`nginx`, `latest`): such a pattern matches exactly the strings
that contain it. -/
def sampleMatch (re s : String) : Bool :=
  s.toList.tails.any (fun t => re.toList.isPrefixOf t)

/-! ## Evaluate -/

/-- The two decisions. -/
inductive Decision where
  | Allow
  | Deny
deriving DecidableEq, Repr

/-- The six reason codes. -/
inductive ReasonCode where
  | Whitelisted
  | Blacklisted
  | DefaultAllow
  | DefaultDeny
  | UriError
  | QueryError
deriving DecidableEq, Repr

/-- The policy store: the compiled lists and the default policy. -/
structure PolicyStore (Re : Type) where
  /-- Compiled whitelist patterns, in configured order. -/
  whitelist : List Re
  /-- Compiled blacklist patterns, in configured order. -/
  blacklist : List Re
  /-- The default policy. -/
  defaultAllow : Bool

/-- The store held by the globals of `main.go`. -/
def Globals.store {Re : Type} (g : Globals Re) : PolicyStore Re :=
  ⟨g.reWhitelist, g.reBlacklist, g.configuration.DefaultAllow⟩

/-- Test a reference against the patterns in order and stop at the first
match. -/
def firstMatch {Re : Type} (MatchString : Re → String → Bool) : List Re → String → Bool
  | [], _ => false
  | p :: ps, R => if MatchString p R then true else firstMatch MatchString ps R

/-- Modelled from the spec: the function `Evaluate` of the decision engine,
which is not in `main.go`.  Steps 3 to 5 of section 4.2: blacklist first, then
whitelist, then the default policy. -/
def Evaluate {Re : Type} (MatchString : Re → String → Bool) (P : PolicyStore Re)
    (R : String) : Decision × ReasonCode :=
  if firstMatch MatchString P.blacklist R then (Decision.Deny, ReasonCode.Blacklisted)
  else if firstMatch MatchString P.whitelist R then (Decision.Allow, ReasonCode.Whitelisted)
  else if P.defaultAllow then (Decision.Allow, ReasonCode.DefaultAllow)
  else (Decision.Deny, ReasonCode.DefaultDeny)

/-! ## The goroutines around `metricsChan` -/

/-- Where the goroutine running `metricsCounter` stands. -/
inductive CounterPc where
  /-- Before the `// initialize` block. -/
  | start
  /-- At `for metric := range metricsChan`, waiting for an event. -/
  | idle
  /-- An event was received; `metricsWg.Add(1)` comes next. -/
  | received (metric : GoMap)
  /-- After `metricsWg.Add(1)`; the inner loop comes next. -/
  | added (metric : GoMap)
  /-- After the inner loop; `metricsWg.Done()` comes next. -/
  | updated
deriving DecidableEq, Repr

/-- The shared state of the process. -/
structure Sys where
  /-- Global `metrics`; `nil` until `metricsCounter` initialises it. -/
  metrics : GoMap
  /-- The events buffered in `metricsChan`, oldest first. -/
  metricsChan : List GoMap
  /-- The counter of `metricsWg`. -/
  metricsWg : Nat
  /-- Position of the `metricsCounter` goroutine. -/
  pc : CounterPc
  /-- The bodies of the completed `/metrics` responses, oldest first. -/
  responses : List String
deriving DecidableEq, Repr

/-- The steps the goroutines take. -/
inductive Action where
  /-- A producer executes `metricsChan <- metric` and the send returns. -/
  | send (metric : GoMap)
  /-- The `metricsCounter` goroutine executes its next statement. -/
  | counter
  /-- A call of `metricsHandler` from `metricsWg.Wait()` returning to the end
  of its loop, with no other goroutine running in between. -/
  | handler
deriving DecidableEq, Repr

/-- Capacity of `metricsChan`. -/
def chanCap : Nat := 128

/-- One step; `none` when the goroutine is blocked. -/
def step (bits : Nat) (s : Sys) : Action → Option Sys
  | .send metric =>
    if s.metricsChan.length < chanCap then
      some { s with metricsChan := s.metricsChan ++ [metric] }
    else none
  | .counter =>
    match s.pc with
    | .start => some { s with metrics := metricsInit, pc := .idle }
    | .idle =>
      match s.metricsChan with
      | [] => none
      | metric :: rest => some { s with metricsChan := rest, pc := .received metric }
    | .received metric => some { s with metricsWg := s.metricsWg + 1, pc := .added metric }
    | .added metric => some { s with metrics := applyMetric bits s.metrics metric, pc := .updated }
    | .updated => some { s with metricsWg := s.metricsWg - 1, pc := .idle }
  | .handler =>
    if s.metricsWg = 0 then
      some { s with responses := s.responses ++ [metricsHandler "" s.metrics] }
    else none

/-- Run a schedule of steps. -/
def run (bits : Nat) : Sys → List Action → Option Sys
  | s, [] => some s
  | s, a :: as =>
    match step bits s a with
    | none => none
    | some s' => run bits s' as

/-- The process when `main` has started the goroutines. -/
def sysStart : Sys :=
  ⟨[], [], 0, .start, []⟩

/-- Modelled from the spec: `Record(reasonCode)` of section 4.3, which is not in
`main.go`: it enqueues a one-count increment event for the label. -/
def Record (label : String) : Action :=
  .send [(label, 1)]

/-- The amount an event adds to the counter of `k`: the sum of the values its
entries for `k` carry (one entry at most in a real map). -/
def increment (metric : GoMap) (k : String) : Nat :=
  ((metric.filter (fun kv => kv.1 = k)).map Prod.snd).sum

/-! ## Lemmas on maps -/

theorem mapLookup_mapSet (m : GoMap) (k k' : String) (v : Nat) :
    mapLookup (mapSet m k v) k' = if k = k' then some v else mapLookup m k' := by
  induction m with
  | nil =>
    by_cases h : k = k' <;> simp [mapSet, mapLookup, h]
  | cons a t ih =>
    obtain ⟨ka, va⟩ := a
    by_cases h1 : ka = k
    · subst h1
      by_cases h2 : ka = k' <;> simp [mapSet, mapLookup, h2]
    · by_cases h2 : ka = k'
      · subst h2
        simp [mapSet, mapLookup, h1, Ne.symm h1]
      · simp [mapSet, mapLookup, h1, h2, ih]

theorem mapGet_mapSet (m : GoMap) (k k' : String) (v : Nat) :
    mapGet (mapSet m k v) k' = if k = k' then v else mapGet m k' := by
  unfold mapGet
  rw [mapLookup_mapSet]
  split <;> rfl

theorem mapLookup_eq_none_iff (m : GoMap) (k : String) :
    mapLookup m k = none ↔ k ∉ mapKeys m := by
  induction m with
  | nil => simp [mapLookup, mapKeys]
  | cons a t ih =>
    obtain ⟨ka, va⟩ := a
    by_cases h : ka = k
    · simp [mapLookup, mapKeys, h]
    · simp only [mapKeys] at ih
      simp [mapLookup, mapKeys, h, ih, Ne.symm h]

theorem mem_mapKeys_iff (m : GoMap) (k : String) :
    k ∈ mapKeys m ↔ ∃ v, mapLookup m k = some v := by
  rw [← Option.isSome_iff_exists, ← Option.ne_none_iff_isSome, Ne, mapLookup_eq_none_iff]
  simp

theorem mapLookup_eq_some_mapGet {m : GoMap} {k : String} (h : k ∈ mapKeys m) :
    mapLookup m k = some (mapGet m k) := by
  obtain ⟨v, hv⟩ := (mem_mapKeys_iff m k).1 h
  simp [mapGet, hv]

theorem mem_mapKeys_cons (a : String × Nat) (t : GoMap) (k : String) :
    k ∈ mapKeys (a :: t) ↔ k = a.1 ∨ k ∈ mapKeys t := by
  simp [mapKeys]

theorem increment_cons (a : String × Nat) (t : GoMap) (k : String) :
    increment (a :: t) k = (if a.1 = k then a.2 else 0) + increment t k := by
  by_cases h : a.1 = k <;> simp [increment, List.filter_cons, h]

theorem increment_eq_zero {metric : GoMap} {k : String} (h : k ∉ mapKeys metric) :
    increment metric k = 0 := by
  induction metric with
  | nil => rfl
  | cons a t ih =>
    rw [mem_mapKeys_cons, not_or] at h
    rw [increment_cons, ih h.2, if_neg (fun e => h.1 e.symm)]

/-- The counter of `k` after one event: untouched when the event has no entry
for `k`, otherwise the wrapped sum of the old count and the increment. -/
theorem mapLookup_applyMetric (bits : Nat) (metric m : GoMap) (k : String) :
    mapLookup (applyMetric bits m metric) k =
      if k ∈ mapKeys metric then some ((mapGet m k + increment metric k) % 2 ^ bits)
      else mapLookup m k := by
  induction metric generalizing m with
  | nil => simp [applyMetric, mapKeys]
  | cons a t ih =>
    have hstep : applyMetric bits m (a :: t) =
        applyMetric bits (mapSet m a.1 (uintAdd bits (mapGet m a.1) a.2)) t := rfl
    rw [hstep, ih, increment_cons]
    by_cases hk : k ∈ mapKeys t
    · have hk' : k ∈ mapKeys (a :: t) := (mem_mapKeys_cons a t k).2 (Or.inr hk)
      rw [if_pos hk, if_pos hk', mapGet_mapSet]
      by_cases ha : a.1 = k
      · subst ha
        simp only [if_true, uintAdd]
        rw [Nat.mod_add_mod, Nat.add_assoc]
      · simp only [ha, if_false, Nat.zero_add]
    · rw [if_neg hk, mapLookup_mapSet, increment_eq_zero hk, Nat.add_zero]
      by_cases ha : a.1 = k
      · have hk' : k ∈ mapKeys (a :: t) := (mem_mapKeys_cons a t k).2 (Or.inl ha.symm)
        rw [if_pos ha, if_pos ha, if_pos hk', ← ha]
        rfl
      · have hk' : k ∉ mapKeys (a :: t) := fun h =>
          ((mem_mapKeys_cons a t k).1 h).elim (fun e => ha e.symm) hk
        rw [if_neg ha, if_neg hk']

theorem mapGet_applyMetric (bits : Nat) (metric m : GoMap) (k : String) :
    mapGet (applyMetric bits m metric) k =
      if k ∈ mapKeys metric then (mapGet m k + increment metric k) % 2 ^ bits
      else mapGet m k := by
  unfold mapGet
  rw [mapLookup_applyMetric]
  split <;> rfl

theorem mem_mapKeys_applyMetric (bits : Nat) (metric m : GoMap) (k : String) :
    k ∈ mapKeys (applyMetric bits m metric) ↔ k ∈ mapKeys m ∨ k ∈ mapKeys metric := by
  rw [mem_mapKeys_iff, mapLookup_applyMetric]
  by_cases hk : k ∈ mapKeys metric
  · simp [hk]
  · simp [hk, mem_mapKeys_iff]

theorem sum_increment_eq_zero {evs : List GoMap} {k : String}
    (h : evs.any (fun e => decide (k ∈ mapKeys e)) = false) :
    (evs.map (fun e => increment e k)).sum = 0 := by
  induction evs with
  | nil => rfl
  | cons e t ih =>
    rw [List.any_cons, Bool.or_eq_false_iff] at h
    rw [List.map_cons, List.sum_cons, ih h.2, increment_eq_zero (of_decide_eq_false h.1)]

/-- The counter of `k` after a sequence of events: untouched when no event has
an entry for `k`, otherwise the wrapped sum of the old count and all the
increments. -/
theorem mapLookup_metricsLoop (bits : Nat) (evs : List GoMap) (m : GoMap) (k : String) :
    mapLookup (metricsLoop bits m evs) k =
      if evs.any (fun e => decide (k ∈ mapKeys e)) = true then
        some ((mapGet m k + (evs.map (fun e => increment e k)).sum) % 2 ^ bits)
      else mapLookup m k := by
  induction evs generalizing m with
  | nil => simp [metricsLoop]
  | cons e t ih =>
    have hstep : metricsLoop bits m (e :: t) = metricsLoop bits (applyMetric bits m e) t := rfl
    rw [hstep, ih, List.any_cons, List.map_cons, List.sum_cons, mapGet_applyMetric,
      mapLookup_applyMetric]
    by_cases he : k ∈ mapKeys e
    · by_cases ht : t.any (fun e => decide (k ∈ mapKeys e)) = true
      · simp only [he, ht, if_true, decide_True, Bool.or_true]
        rw [Nat.mod_add_mod, Nat.add_assoc]
      · rw [Bool.not_eq_true] at ht
        simp [he, ht, sum_increment_eq_zero ht]
    · by_cases ht : t.any (fun e => decide (k ∈ mapKeys e)) = true
      · simp [he, ht, increment_eq_zero he]
      · rw [Bool.not_eq_true] at ht
        simp [he, ht]

theorem mapLookup_metricsLoop_perm (bits : Nat) (m : GoMap) {evs evs' : List GoMap}
    (h : evs.Perm evs') (k : String) :
    mapLookup (metricsLoop bits m evs) k = mapLookup (metricsLoop bits m evs') k := by
  have hany : evs.any (fun e => decide (k ∈ mapKeys e)) =
      evs'.any (fun e => decide (k ∈ mapKeys e)) := by
    rw [Bool.eq_iff_iff, List.any_eq_true, List.any_eq_true]
    exact ⟨fun ⟨e, he, hk⟩ => ⟨e, h.mem_iff.1 he, hk⟩, fun ⟨e, he, hk⟩ => ⟨e, h.mem_iff.2 he, hk⟩⟩
  have hsum : (evs.map (fun e => increment e k)).sum = (evs'.map (fun e => increment e k)).sum :=
    (h.map _).sum_eq
  rw [mapLookup_metricsLoop, mapLookup_metricsLoop, hany, hsum]

theorem mem_mapKeys_mapSet (m : GoMap) (k k' : String) (v : Nat) :
    k' ∈ mapKeys (mapSet m k v) ↔ k' = k ∨ k' ∈ mapKeys m := by
  rw [mem_mapKeys_iff, mem_mapKeys_iff, mapLookup_mapSet]
  by_cases h : k = k'
  · simp [h]
  · simp [h, Ne.symm h]

theorem nodup_mapKeys_mapSet {m : GoMap} (h : (mapKeys m).Nodup) (k : String) (v : Nat) :
    (mapKeys (mapSet m k v)).Nodup := by
  induction m with
  | nil => simp [mapSet, mapKeys]
  | cons a t ih =>
    obtain ⟨ka, va⟩ := a
    have h' : ka ∉ mapKeys t ∧ (mapKeys t).Nodup := by simpa [mapKeys] using h
    by_cases hk : ka = k
    · subst hk
      simpa [mapSet, mapKeys] using h
    · have hmem : ka ∉ mapKeys (mapSet t k v) := by
        rw [mem_mapKeys_mapSet]
        exact fun c => c.elim hk h'.1
      have := ih h'.2
      simp only [mapSet, if_neg hk]
      exact List.nodup_cons.2 ⟨hmem, this⟩

theorem nodup_mapKeys_applyMetric (bits : Nat) (metric : GoMap) {m : GoMap}
    (h : (mapKeys m).Nodup) : (mapKeys (applyMetric bits m metric)).Nodup := by
  induction metric generalizing m with
  | nil => exact h
  | cons a t ih => exact ih (nodup_mapKeys_mapSet h _ _)

theorem mem_iff_mapLookup {m : GoMap} (h : (mapKeys m).Nodup) (k : String) (v : Nat) :
    (k, v) ∈ m ↔ mapLookup m k = some v := by
  induction m with
  | nil => simp [mapLookup]
  | cons a t ih =>
    obtain ⟨ka, va⟩ := a
    have h' : ka ∉ mapKeys t ∧ (mapKeys t).Nodup := by simpa [mapKeys] using h
    by_cases hk : ka = k
    · subst hk
      have hnot : ∀ v, (ka, v) ∉ t := fun v hv => h'.1 (List.mem_map.2 ⟨(ka, v), hv, rfl⟩)
      simp [mapLookup, hnot v, eq_comm]
    · simp [mapLookup, hk, Ne.symm hk, ih h'.2]

/-- Two maps with the same reads have the same entries. -/
theorem perm_of_mapLookup_eq {m m' : GoMap} (h : (mapKeys m).Nodup) (h' : (mapKeys m').Nodup)
    (heq : ∀ k, mapLookup m k = mapLookup m' k) : m.Perm m' := by
  rw [List.perm_ext_iff_of_nodup (List.Nodup.of_map _ h) (List.Nodup.of_map _ h')]
  rintro ⟨k, v⟩
  rw [mem_iff_mapLookup h, mem_iff_mapLookup h', heq]

theorem increment_eq_mapGet {metric : GoMap} (h : (mapKeys metric).Nodup) (k : String) :
    increment metric k = mapGet metric k := by
  induction metric with
  | nil => rfl
  | cons a t ih =>
    obtain ⟨ka, va⟩ := a
    have h' : ka ∉ mapKeys t ∧ (mapKeys t).Nodup := by simpa [mapKeys] using h
    rw [increment_cons]
    by_cases hk : ka = k
    · subst hk
      simp [increment_eq_zero h'.1, mapGet, mapLookup]
    · simp [hk, ih h'.2, mapGet, mapLookup]

theorem mapLookup_metricsInit {k : String} (h : k ∈ knownLabels) :
    mapLookup metricsInit k = some 0 := by
  simp only [knownLabels, List.mem_cons, List.mem_singleton, List.not_mem_nil, or_false] at h
  rcases h with rfl | rfl | rfl | rfl | rfl | rfl <;> decide

theorem sum_increment_eq_count {L L' : String} (hne : L ≠ L') {evs : List GoMap}
    (hev : ∀ e ∈ evs, e = [(L, 1)] ∨ e = [(L', 1)]) :
    (evs.map (fun e => increment e L)).sum = evs.count [(L, 1)] := by
  induction evs with
  | nil => rfl
  | cons e t ih =>
    have ht := ih (fun e he => hev e (List.mem_cons_of_mem _ he))
    rw [List.map_cons, List.sum_cons, ht]
    rcases hev e (List.mem_cons_self _ _) with rfl | rfl
    · rw [List.count_cons_self]
      simp [increment, Nat.add_comm]
    · have hd : ([(L', 1)] : GoMap) ≠ [(L, 1)] := by
        intro c
        simp at c
        exact hne c.symm
      rw [List.count_cons_of_ne hd.symm]
      simp [increment, Ne.symm hne]

/-- After any sequence of one-count events for `L` and `L'`, the counter of a
known label `L` holds the number of its events modulo `2 ^ bits`. -/
theorem mapLookup_metricsCounter_count (bits : Nat) {L L' : String} (hL : L ∈ knownLabels)
    (hne : L ≠ L') {evs : List GoMap} (hev : ∀ e ∈ evs, e = [(L, 1)] ∨ e = [(L', 1)]) :
    mapLookup (metricsCounter bits evs) L = some (evs.count [(L, 1)] % 2 ^ bits) := by
  have h0 : mapGet metricsInit L = 0 := by simp [mapGet, mapLookup_metricsInit hL]
  unfold metricsCounter
  rw [mapLookup_metricsLoop, h0, Nat.zero_add, sum_increment_eq_count hne hev]
  by_cases ht : evs.any (fun e => decide (L ∈ mapKeys e)) = true
  · rw [if_pos ht]
  · rw [if_neg ht, mapLookup_metricsInit hL]
    rw [Bool.not_eq_true] at ht
    rw [← sum_increment_eq_count hne hev, sum_increment_eq_zero ht, Nat.zero_mod]

theorem mapLookup_metricsCounter_untouched (bits : Nat) {k : String} (hk : k ∈ knownLabels)
    {evs : List GoMap} (hev : ∀ e ∈ evs, k ∉ mapKeys e) :
    mapLookup (metricsCounter bits evs) k = some 0 := by
  have ht : ¬ evs.any (fun e => decide (k ∈ mapKeys e)) = true := by
    rw [List.any_eq_true]
    rintro ⟨e, he, hke⟩
    exact hev e he (of_decide_eq_true hke)
  unfold metricsCounter
  rw [mapLookup_metricsLoop, if_neg ht, mapLookup_metricsInit hk]

/-! ## Lemmas on readConfig -/

theorem compiles_of_ok {Re E : Type} {compile : String → Except E Re} {v : String} {re : Re}
    (h : compile v = .ok re) : compiles compile v = true := by
  simp [compiles, h]

theorem compiles_of_error {Re E : Type} {compile : String → Except E Re} {v : String} {e : E}
    (h : compile v = .error e) : compiles compile v = false := by
  simp [compiles, h]

/-- One compile loop: the results of the patterns before the first invalid one
are appended, and the loop ends either after the last pattern or with the error
of the first invalid pattern. -/
theorem compileAll_spec {Re E : Type} (compile : String → Except E Re) (vs : List String)
    (list : List Re) (log : List String) :
    ∃ rs : List Re,
      rs.map Except.ok = (vs.takeWhile (compiles compile)).map compile ∧
      ((vs.all (compiles compile) = true ∧
          compileAll compile vs list log = (list ++ rs, log ++ vs, none)) ∨
        (∃ bad post e, vs = vs.takeWhile (compiles compile) ++ bad :: post ∧
          compile bad = .error e ∧
          compileAll compile vs list log =
            (list ++ rs, log ++ vs.takeWhile (compiles compile) ++ [bad], some e))) := by
  induction vs generalizing list log with
  | nil => exact ⟨[], rfl, Or.inl ⟨rfl, by simp [compileAll]⟩⟩
  | cons v vs ih =>
    cases h : compile v with
    | error e =>
      have hc := compiles_of_error h
      refine ⟨[], by simp [List.takeWhile_cons, hc], Or.inr ⟨v, vs, e, ?_, h, ?_⟩⟩
      · simp [List.takeWhile_cons, hc]
      · simp [compileAll, h, List.takeWhile_cons, hc]
    | ok re =>
      have hc := compiles_of_ok h
      obtain ⟨rs, hrs, hcase⟩ := ih (list ++ [re]) (log ++ [v])
      refine ⟨re :: rs, by simp [List.takeWhile_cons, hc, h, hrs], ?_⟩
      rcases hcase with ⟨hall, hrun⟩ | ⟨bad, post, e, hsplit, hbad, hrun⟩
      · refine Or.inl ⟨by simp [List.all_cons, hc, hall], ?_⟩
        simp [compileAll, h, hrun]
      · refine Or.inr ⟨bad, post, e, ?_, hbad, ?_⟩
        · rw [List.takeWhile_cons, if_pos hc, List.cons_append, ← hsplit]
        · simp [compileAll, h, hrun, List.takeWhile_cons, hc]

theorem takeWhile_first_invalid {p : String → Bool} {pre : List String} (post : List String)
    {bad : String} (hpre : ∀ v ∈ pre, p v = true) (hbad : p bad = false) :
    (pre ++ bad :: post).takeWhile p = pre := by
  rw [List.takeWhile_append_of_pos hpre, List.takeWhile_cons]
  simp [hbad]

/-- The function `readConfig` on a configuration that was decoded: both lists
grow by the compiled patterns that precede the first invalid one, and the call
ends without error after the last pattern or with the error of the first
invalid pattern, having compiled nothing after it. -/
theorem readConfig_spec {Re E : Type} (compile : String → Except E Re) (cfg : Config)
    (g : Globals Re) :
    ∃ rsW rsB : List Re,
      rsW.map Except.ok = (cfg.Whitelist.takeWhile (compiles compile)).map compile ∧
      rsB.map Except.ok =
        (if cfg.Whitelist.all (compiles compile) = true
          then cfg.Blacklist.takeWhile (compiles compile) else []).map compile ∧
      (rsW ++ rsB).length =
        ((cfg.Whitelist ++ cfg.Blacklist).takeWhile (compiles compile)).length ∧
      (readConfig compile (.ok cfg) g).globals =
        ⟨g.reWhitelist ++ rsW, g.reBlacklist ++ rsB, cfg⟩ ∧
      (((cfg.Whitelist ++ cfg.Blacklist).all (compiles compile) = true ∧
          (readConfig compile (.ok cfg) g).err = none ∧
          (readConfig compile (.ok cfg) g).compiled = cfg.Whitelist ++ cfg.Blacklist) ∨
        (∃ bad post e,
          cfg.Whitelist ++ cfg.Blacklist =
            (cfg.Whitelist ++ cfg.Blacklist).takeWhile (compiles compile) ++ bad :: post ∧
          compile bad = .error e ∧
          (readConfig compile (.ok cfg) g).err = some e ∧
          (readConfig compile (.ok cfg) g).compiled =
            (cfg.Whitelist ++ cfg.Blacklist).takeWhile (compiles compile) ++ [bad])) := by
  obtain ⟨rsW, hrsW, hW⟩ := compileAll_spec compile cfg.Whitelist g.reWhitelist []
  rcases hW with ⟨hallW, hrunW⟩ | ⟨bad, post, e, hsplit, hbad, hrunW⟩
  · obtain ⟨rsB, hrsB, hB⟩ := compileAll_spec compile cfg.Blacklist g.reBlacklist cfg.Whitelist
    rw [List.nil_append] at hrunW
    have hallW' : ∀ v ∈ cfg.Whitelist, compiles compile v = true := List.all_eq_true.1 hallW
    have htake : (cfg.Whitelist ++ cfg.Blacklist).takeWhile (compiles compile) =
        cfg.Whitelist ++ cfg.Blacklist.takeWhile (compiles compile) :=
      List.takeWhile_append_of_pos hallW'
    have hlen : (rsW ++ rsB).length =
        ((cfg.Whitelist ++ cfg.Blacklist).takeWhile (compiles compile)).length := by
      have h1 := congrArg List.length hrsW
      have h2 := congrArg List.length hrsB
      rw [(List.takeWhile_eq_self_iff).2 hallW'] at h1
      simp only [List.length_map] at h1 h2
      rw [htake, List.length_append, List.length_append, h1, h2]
    refine ⟨rsW, rsB, hrsW, by rw [if_pos hallW]; exact hrsB, hlen, ?_, ?_⟩
    · rcases hB with ⟨_, hrunB⟩ | ⟨bad, post, e, _, _, hrunB⟩ <;>
        simp [readConfig, hrunW, hrunB]
    · rcases hB with ⟨hallB, hrunB⟩ | ⟨bad, post, e, hsplit, hbad, hrunB⟩
      · refine Or.inl ⟨by rw [List.all_append, hallW, hallB]; rfl, ?_, ?_⟩ <;>
          simp [readConfig, hrunW, hrunB]
      · refine Or.inr ⟨bad, post, e, ?_, hbad, ?_, ?_⟩
        · rw [htake, List.append_assoc, ← hsplit]
        · simp [readConfig, hrunW, hrunB]
        · simp [readConfig, hrunW, hrunB, htake]
  · rw [List.nil_append] at hrunW
    have hc := compiles_of_error hbad
    have hnotall : ¬ cfg.Whitelist.all (compiles compile) = true := by
      intro hall
      have hmem : bad ∈ cfg.Whitelist := by
        rw [hsplit]
        exact List.mem_append_right _ (List.mem_cons_self _ _)
      rw [List.all_eq_true.1 hall bad hmem] at hc
      exact Bool.noConfusion hc
    have htake : (cfg.Whitelist ++ cfg.Blacklist).takeWhile (compiles compile) =
        cfg.Whitelist.takeWhile (compiles compile) := by
      conv_lhs => rw [hsplit, List.append_assoc, List.cons_append]
      exact takeWhile_first_invalid _ (fun v hv => (List.mem_takeWhile_imp hv)) hc
    refine ⟨rsW, [], hrsW, by rw [if_neg hnotall]; rfl, ?_, ?_, Or.inr ⟨bad, post ++ cfg.Blacklist, e, ?_, hbad, ?_, ?_⟩⟩
    · have h1 := congrArg List.length hrsW
      simp only [List.length_map] at h1
      rw [htake, List.append_nil, h1]
    · simp [readConfig, hrunW]
    · rw [htake, ← List.cons_append, ← List.append_assoc, ← hsplit]
    · simp [readConfig, hrunW]
    · simp [readConfig, hrunW, htake]

/-! ## Lemmas on metricsHandler and Evaluate -/

theorem foldl_append_string (l : List String) (init : String) :
    l.foldl (fun r s => r ++ s) init = init ++ l.foldl (fun r s => r ++ s) "" := by
  induction l generalizing init with
  | nil => simp
  | cons a t ih =>
    rw [List.foldl_cons, ih, List.foldl_cons, ih ("" ++ a), String.empty_append,
      String.append_assoc]

theorem foldl_Fprintf (visit : GoMap) (w : String) :
    visit.foldl (fun out kv => Fprintf out kv.1 kv.2) w =
      w ++ String.join (visit.map entryLine) := by
  induction visit generalizing w with
  | nil => simp [String.join]
  | cons a t ih =>
    rw [List.foldl_cons, ih, List.map_cons]
    unfold String.join
    rw [List.foldl_cons, foldl_append_string _ ("" ++ entryLine a), String.empty_append]
    simp [Fprintf, String.append_assoc]

theorem metricsHandler_eq (visit : GoMap) :
    metricsHandler "" visit =
      "# Prometheus metrics.\n" ++ String.join (visit.map entryLine) := by
  unfold metricsHandler
  rw [foldl_Fprintf]
  rfl

theorem firstMatch_eq_true_iff {Re : Type} (MatchString : Re → String → Bool) (ps : List Re)
    (R : String) : firstMatch MatchString ps R = true ↔ ∃ p ∈ ps, MatchString p R = true := by
  induction ps with
  | nil => simp [firstMatch]
  | cons p ps ih =>
    by_cases h : MatchString p R = true
    · simp [firstMatch, h]
    · simp [firstMatch, h, ih]

/-! ## The claims -/

/-- C1: a reference that matches at least one blacklist pattern is denied with
reason `Blacklisted`, whatever the whitelist and the default policy are. -/
theorem Evaluate_blacklist_precedence {Re : Type} (MatchString : Re → String → Bool)
    (P : PolicyStore Re) (R : String) (h : ∃ p ∈ P.blacklist, MatchString p R = true) :
    Evaluate MatchString P R = (Decision.Deny, ReasonCode.Blacklisted) := by
  have hb : firstMatch MatchString P.blacklist R = true :=
    (firstMatch_eq_true_iff MatchString P.blacklist R).2 h
  simp [Evaluate, hb]

/-- C1 at the store `readConfig` builds from one whitelist and one blacklist
pattern with default allow, and a reference matching both patterns. -/
theorem Evaluate_blacklist_precedence_witness :
    (∃ p ∈ (readConfig sampleCompile (.ok ⟨["nginx"], ["latest"], true⟩)
        (initialGlobals String)).globals.store.whitelist,
      sampleMatch p "library/nginx:latest" = true) ∧
    (∃ p ∈ (readConfig sampleCompile (.ok ⟨["nginx"], ["latest"], true⟩)
        (initialGlobals String)).globals.store.blacklist,
      sampleMatch p "library/nginx:latest" = true) ∧
    Evaluate sampleMatch
        (readConfig sampleCompile (.ok ⟨["nginx"], ["latest"], true⟩)
          (initialGlobals String)).globals.store "library/nginx:latest" =
      (Decision.Deny, ReasonCode.Blacklisted) :=
  ⟨by decide, by decide,
    Evaluate_blacklist_precedence sampleMatch
      (readConfig sampleCompile (.ok ⟨["nginx"], ["latest"], true⟩)
        (initialGlobals String)).globals.store
      "library/nginx:latest" (by decide)⟩

/-- C2: on a decoded configuration `readConfig` returns an error exactly when
some whitelist or blacklist pattern does not compile; the error is that of the
first invalid pattern in the order whitelist, then blacklist, and the calls of
`regexp.Compile` are those for the patterns up to and including it. -/
theorem readConfig_fail_fast {Re E : Type} (compile : String → Except E Re) (cfg : Config)
    (g : Globals Re) :
    ((readConfig compile (.ok cfg) g).err ≠ none ↔
      ∃ v ∈ cfg.Whitelist ++ cfg.Blacklist, compiles compile v = false) ∧
    (∀ pre bad post e, cfg.Whitelist ++ cfg.Blacklist = pre ++ bad :: post →
      (∀ v ∈ pre, compiles compile v = true) → compile bad = .error e →
      (readConfig compile (.ok cfg) g).err = some e ∧
      (readConfig compile (.ok cfg) g).compiled = pre ++ [bad]) := by
  obtain ⟨rsW, rsB, -, -, -, -, hcase⟩ := readConfig_spec compile cfg g
  constructor
  · rcases hcase with ⟨hall, herr, -⟩ | ⟨bad, post, e, hsplit, hbad, herr, -⟩
    · rw [herr]
      refine ⟨fun h => absurd rfl h, ?_⟩
      rintro ⟨v, hv, hc⟩
      rw [List.all_eq_true.1 hall v hv] at hc
      exact Bool.noConfusion hc
    · rw [herr]
      refine ⟨fun _ => ⟨bad, ?_, compiles_of_error hbad⟩, fun _ => Option.some_ne_none e⟩
      rw [hsplit]
      exact List.mem_append_right _ (List.mem_cons_self _ _)
  · intro pre bad post e hsplit hpre hbad
    have hc := compiles_of_error hbad
    have htake := takeWhile_first_invalid post hpre hc
    rw [← hsplit] at htake
    rcases hcase with ⟨hall, -, -⟩ | ⟨bad', post', e', hsplit', hbad', herr, hlog⟩
    · have hmem : bad ∈ cfg.Whitelist ++ cfg.Blacklist := by
        rw [hsplit]
        exact List.mem_append_right _ (List.mem_cons_self _ _)
      rw [List.all_eq_true.1 hall bad hmem] at hc
      exact Bool.noConfusion hc
    · rw [htake] at hsplit' hlog
      have hcons : bad :: post = bad' :: post' :=
        List.append_cancel_left (hsplit.symm.trans hsplit')
      have hb : bad = bad' := (List.cons.inj hcons).1
      subst hb
      rw [hbad] at hbad'
      have he : e = e' := Except.error.inj hbad'
      subst he
      exact ⟨herr, hlog⟩

/-- C2 at a configuration whose second whitelist pattern is `"("`. -/
theorem readConfig_fail_fast_witness :
    (readConfig sampleCompile (.ok ⟨["nginx", "(", "alpine"], ["latest"], false⟩)
        (initialGlobals String)).err = some "missing closing )" ∧
    (readConfig sampleCompile (.ok ⟨["nginx", "(", "alpine"], ["latest"], false⟩)
        (initialGlobals String)).compiled = ["nginx"] ++ ["("] :=
  (readConfig_fail_fast sampleCompile ⟨["nginx", "(", "alpine"], ["latest"], false⟩
      (initialGlobals String)).2
    ["nginx"] "(" ["alpine", "latest"] "missing closing )" rfl (by decide) rfl

/-- C3 as stated fails: with a valid pattern before `"("`, the call returns the
error and `reWhitelist`, empty before the call, holds the first pattern. -/
theorem readConfig_error_keeps_valid_patterns :
    (readConfig sampleCompile (.ok ⟨["^library/nginx:.*$", "("], [], false⟩)
        (initialGlobals String)).err = some "missing closing )" ∧
    (initialGlobals String).reWhitelist = [] ∧
    (readConfig sampleCompile (.ok ⟨["^library/nginx:.*$", "("], [], false⟩)
        (initialGlobals String)).globals.reWhitelist = ["^library/nginx:.*$"] := by
  decide

/-- C3, amended: when `readConfig` returns a compile error, `reWhitelist` and
`reBlacklist` are their values before the call followed by the compilations of
the patterns that precede the first invalid one; they are unchanged exactly
when no pattern precedes it. -/
theorem readConfig_error_globals {Re E : Type} (compile : String → Except E Re) (cfg : Config)
    (g : Globals Re) (e : E) (herr : (readConfig compile (.ok cfg) g).err = some e) :
    ∃ (rsW rsB : List Re) (bad : String) (post : List String),
      cfg.Whitelist ++ cfg.Blacklist =
        (cfg.Whitelist ++ cfg.Blacklist).takeWhile (compiles compile) ++ bad :: post ∧
      compile bad = .error e ∧
      (readConfig compile (.ok cfg) g).globals.reWhitelist = g.reWhitelist ++ rsW ∧
      (readConfig compile (.ok cfg) g).globals.reBlacklist = g.reBlacklist ++ rsB ∧
      rsW.map Except.ok = (cfg.Whitelist.takeWhile (compiles compile)).map compile ∧
      rsB.map Except.ok =
        (if cfg.Whitelist.all (compiles compile) = true
          then cfg.Blacklist.takeWhile (compiles compile) else []).map compile ∧
      (((readConfig compile (.ok cfg) g).globals.reWhitelist = g.reWhitelist ∧
          (readConfig compile (.ok cfg) g).globals.reBlacklist = g.reBlacklist) ↔
        (cfg.Whitelist ++ cfg.Blacklist).takeWhile (compiles compile) = []) := by
  obtain ⟨rsW, rsB, hrsW, hrsB, hlen, hglob, hcase⟩ := readConfig_spec compile cfg g
  rcases hcase with ⟨-, hnone, -⟩ | ⟨bad, post, e', hsplit, hbad, herr', -⟩
  · rw [hnone] at herr
    exact Option.noConfusion herr
  · rw [herr'] at herr
    have he : e' = e := Option.some.inj herr
    subst he
    refine ⟨rsW, rsB, bad, post, hsplit, hbad, by rw [hglob], by rw [hglob], hrsW, hrsB, ?_⟩
    rw [hglob]
    simp only [List.append_right_eq_self]
    rw [← List.length_eq_zero (l := List.takeWhile _ _), ← hlen, List.length_eq_zero,
      List.append_eq_nil]

/-- C3, amended, at a configuration whose first pattern is `"("`: the lists
are unchanged. -/
theorem readConfig_error_globals_witness :
    (readConfig sampleCompile (.ok ⟨["("], ["latest"], false⟩) (initialGlobals String)).err =
      some "missing closing )" ∧
    ∃ (rsW rsB : List String) (bad : String) (post : List String),
      ["("] ++ ["latest"] =
        (["("] ++ ["latest"]).takeWhile (compiles sampleCompile) ++ bad :: post ∧
      sampleCompile bad = .error "missing closing )" ∧
      (readConfig sampleCompile (.ok ⟨["("], ["latest"], false⟩)
        (initialGlobals String)).globals.reWhitelist = [] ++ rsW ∧
      (readConfig sampleCompile (.ok ⟨["("], ["latest"], false⟩)
        (initialGlobals String)).globals.reBlacklist = [] ++ rsB ∧
      rsW.map Except.ok = (["("].takeWhile (compiles sampleCompile)).map sampleCompile ∧
      rsB.map Except.ok =
        (if ["("].all (compiles sampleCompile) = true
          then ["latest"].takeWhile (compiles sampleCompile) else []).map sampleCompile ∧
      (((readConfig sampleCompile (.ok ⟨["("], ["latest"], false⟩)
          (initialGlobals String)).globals.reWhitelist = [] ∧
        (readConfig sampleCompile (.ok ⟨["("], ["latest"], false⟩)
          (initialGlobals String)).globals.reBlacklist = []) ↔
        (["("] ++ ["latest"]).takeWhile (compiles sampleCompile) = []) :=
  ⟨by decide,
    readConfig_error_globals sampleCompile ⟨["("], ["latest"], false⟩ (initialGlobals String)
      "missing closing )" (by decide)⟩

/-- C4: when every pattern compiles and the compiled lists start empty,
`readConfig` returns no error and each compiled list has the length of its
configured list, its i-th element being the compilation of the i-th string. -/
theorem readConfig_preserves_order {Re E : Type} (compile : String → Except E Re)
    (cfg : Config) (g : Globals Re) (hW : g.reWhitelist = []) (hB : g.reBlacklist = [])
    (hall : ∀ v ∈ cfg.Whitelist ++ cfg.Blacklist, compiles compile v = true) :
    (readConfig compile (.ok cfg) g).err = none ∧
    (readConfig compile (.ok cfg) g).globals.reWhitelist.length = cfg.Whitelist.length ∧
    (readConfig compile (.ok cfg) g).globals.reBlacklist.length = cfg.Blacklist.length ∧
    (∀ i : Nat, ((readConfig compile (.ok cfg) g).globals.reWhitelist[i]?).map Except.ok =
      (cfg.Whitelist[i]?).map compile) ∧
    (∀ i : Nat, ((readConfig compile (.ok cfg) g).globals.reBlacklist[i]?).map Except.ok =
      (cfg.Blacklist[i]?).map compile) := by
  obtain ⟨rsW, rsB, hrsW, hrsB, -, hglob, hcase⟩ := readConfig_spec compile cfg g
  have hallW : ∀ v ∈ cfg.Whitelist, compiles compile v = true :=
    fun v hv => hall v (List.mem_append_left _ hv)
  have hallB : ∀ v ∈ cfg.Blacklist, compiles compile v = true :=
    fun v hv => hall v (List.mem_append_right _ hv)
  rw [List.takeWhile_eq_self_iff.2 hallW] at hrsW
  rw [if_pos (List.all_eq_true.2 hallW), List.takeWhile_eq_self_iff.2 hallB] at hrsB
  have herr : (readConfig compile (.ok cfg) g).err = none := by
    rcases hcase with ⟨-, hnone, -⟩ | ⟨bad, post, e, hsplit, hbad, -, -⟩
    · exact hnone
    · have hc := compiles_of_error hbad
      have hmem : bad ∈ cfg.Whitelist ++ cfg.Blacklist := by
        rw [hsplit]
        exact List.mem_append_right _ (List.mem_cons_self _ _)
      rw [hall bad hmem] at hc
      exact Bool.noConfusion hc
  rw [hglob, hW, hB]
  simp only [List.nil_append]
  refine ⟨herr, ?_, ?_, ?_, ?_⟩
  · simpa using congrArg List.length hrsW
  · simpa using congrArg List.length hrsB
  · intro i
    rw [← List.getElem?_map, hrsW, List.getElem?_map]
  · intro i
    rw [← List.getElem?_map, hrsB, List.getElem?_map]

/-- C4 at a configuration with two whitelist patterns and one blacklist
pattern. -/
theorem readConfig_preserves_order_witness :
    (∀ v ∈ ["nginx", "alpine"] ++ ["latest"], compiles sampleCompile v = true) ∧
    (readConfig sampleCompile (.ok ⟨["nginx", "alpine"], ["latest"], false⟩)
      (initialGlobals String)).globals.reWhitelist.length = 2 :=
  ⟨by decide,
    (readConfig_preserves_order sampleCompile ⟨["nginx", "alpine"], ["latest"], false⟩
      (initialGlobals String) rfl rfl (by decide)).2.1⟩

/-- C5 as stated fails for counts beyond the range of `uint`: on a platform
with 32-bit `uint`, after `2 ^ 32` one-count events for `allow` the map holds 0
for that label. -/
theorem metricsCounter_wraps_after_uint_range :
    (List.replicate (2 ^ 32) ([(labelAllow, 1)] : GoMap)).count [(labelAllow, 1)] = 2 ^ 32 ∧
    mapLookup (metricsCounter 32 (List.replicate (2 ^ 32) [(labelAllow, 1)])) labelAllow =
      some 0 := by
  have hev : ∀ e ∈ List.replicate (2 ^ 32) ([(labelAllow, 1)] : GoMap),
      e = [(labelAllow, 1)] ∨ e = [(labelBlock, 1)] :=
    fun e he => Or.inl (List.eq_of_mem_replicate he)
  have hcount : (List.replicate (2 ^ 32) ([(labelAllow, 1)] : GoMap)).count [(labelAllow, 1)] =
      2 ^ 32 := List.count_replicate_self _ _
  refine ⟨hcount, ?_⟩
  have hne : labelAllow ≠ labelBlock := by decide
  rw [mapLookup_metricsCounter_count 32 (by decide) hne hev, hcount, Nat.mod_self]

/-- C5, amended: starting from the initialised map, after `N` one-count events
for `L` and `M` one-count events for `L'`, in any interleaving, with `N` and
`M` below `2 ^ bits`, the map holds exactly `N` for `L`, exactly `M` for `L'`
and 0 for every known label no event mentions. -/
theorem metricsCounter_accuracy (bits : Nat) (L L' : String) (evs : List GoMap) (N M : Nat)
    (hL : L ∈ knownLabels) (hL' : L' ∈ knownLabels) (hne : L ≠ L')
    (hev : ∀ e ∈ evs, e = [(L, 1)] ∨ e = [(L', 1)])
    (hN : evs.count [(L, 1)] = N) (hM : evs.count [(L', 1)] = M)
    (hNb : N < 2 ^ bits) (hMb : M < 2 ^ bits) :
    mapLookup (metricsCounter bits evs) L = some N ∧
    mapLookup (metricsCounter bits evs) L' = some M ∧
    (∀ k ∈ knownLabels, (∀ e ∈ evs, k ∉ mapKeys e) →
      mapLookup (metricsCounter bits evs) k = some 0) := by
  refine ⟨?_, ?_, fun k hk hun => mapLookup_metricsCounter_untouched bits hk hun⟩
  · rw [mapLookup_metricsCounter_count bits hL hne hev, hN, Nat.mod_eq_of_lt hNb]
  · rw [mapLookup_metricsCounter_count bits hL' (Ne.symm hne) (fun e he => (hev e he).symm), hM,
      Nat.mod_eq_of_lt hMb]

/-- C5, amended, at two `allow` events interleaved with one `block` event. -/
theorem metricsCounter_accuracy_witness :
    mapLookup (metricsCounter 64
      [[(labelAllow, 1)], [(labelBlock, 1)], [(labelAllow, 1)]]) labelAllow = some 2 ∧
    mapLookup (metricsCounter 64
      [[(labelAllow, 1)], [(labelBlock, 1)], [(labelAllow, 1)]]) labelBlock = some 1 ∧
    (∀ k ∈ knownLabels,
      (∀ e ∈ [[(labelAllow, 1)], [(labelBlock, 1)], [(labelAllow, 1)]], k ∉ mapKeys e) →
      mapLookup (metricsCounter 64
        [[(labelAllow, 1)], [(labelBlock, 1)], [(labelAllow, 1)]]) k = some 0) :=
  metricsCounter_accuracy 64 labelAllow labelBlock
    [[(labelAllow, 1)], [(labelBlock, 1)], [(labelAllow, 1)]] 2 1
    (by decide) (by decide) (by decide) (by decide) (by decide) (by decide) (by decide)
    (by decide)

/-- C6 as stated fails: with 64-bit `uint`, a counter at its maximum that
receives an increment of one wraps to 0, below its count before the event. -/
theorem counter_decreases_on_wraparound :
    labelAllow ∈ mapKeys [(labelAllow, 18446744073709551615)] ∧
    mapGet [(labelAllow, 18446744073709551615)] labelAllow = 18446744073709551615 ∧
    mapGet (applyMetric 64 [(labelAllow, 18446744073709551615)] [(labelAllow, 1)])
      labelAllow = 0 := by
  decide

/-- C6, amended: every label present before an event is present after it; its
count after the event is the count before plus the event's increment, modulo
`2 ^ bits`, and so is greater than or equal to the count before whenever that
sum stays below `2 ^ bits`. -/
theorem counters_never_removed_monotone_below_range (bits : Nat) (m metric : GoMap)
    (k : String) (hk : k ∈ mapKeys m) :
    k ∈ mapKeys (applyMetric bits m metric) ∧
    mapGet (applyMetric bits m metric) k =
      (if k ∈ mapKeys metric then (mapGet m k + increment metric k) % 2 ^ bits
        else mapGet m k) ∧
    (mapGet m k + increment metric k < 2 ^ bits →
      mapGet m k ≤ mapGet (applyMetric bits m metric) k) := by
  refine ⟨(mem_mapKeys_applyMetric bits metric m k).2 (Or.inl hk),
    mapGet_applyMetric bits metric m k, fun hlt => ?_⟩
  rw [mapGet_applyMetric]
  by_cases hmem : k ∈ mapKeys metric
  · rw [if_pos hmem, Nat.mod_eq_of_lt hlt]
    exact Nat.le_add_right _ _
  · rw [if_neg hmem]

/-- C6, amended, at the initialised map and one `allow` event. -/
theorem counters_never_removed_monotone_below_range_witness :
    labelAllow ∈ mapKeys metricsInit ∧
    labelAllow ∈ mapKeys (applyMetric 64 metricsInit [(labelAllow, 1)]) ∧
    mapGet metricsInit labelAllow ≤
      mapGet (applyMetric 64 metricsInit [(labelAllow, 1)]) labelAllow :=
  ⟨by decide,
    (counters_never_removed_monotone_below_range 64 metricsInit [(labelAllow, 1)] labelAllow
      (by decide)).1,
    (counters_never_removed_monotone_below_range 64 metricsInit [(labelAllow, 1)] labelAllow
      (by decide)).2.2 (by decide)⟩

/-- C7 fails on the code: `metrics` is seeded inside the `metricsCounter`
goroutine, which `main` starts after the HTTP server, so a request served before
the initialize block has run finds the map `nil` and the response is the comment
line alone, with none of the six labels.  Once the block has run, and before any
event, the map has exactly the six entries `allow`, `blacklist`, `block`,
`query_err`, `uri_err`, `whitelist` at 0 and the response lists all six. -/
theorem metricsHandler_before_initialize_lists_no_label (bits : Nat) :
    (run bits sysStart [Action.handler]).map (fun s => (s.metrics, s.responses)) =
      some ([], ["# Prometheus metrics.\n"]) ∧
    (run bits sysStart [Action.counter, Action.handler]).map
        (fun s => (s.metrics, s.responses)) =
      some ([("docker_image_policy\x7bstate=\"allow\"\x7d", 0),
          ("docker_image_policy\x7bstate=\"blacklist\"\x7d", 0),
          ("docker_image_policy\x7bstate=\"block\"\x7d", 0),
          ("docker_image_policy\x7bstate=\"query_err\"\x7d", 0),
          ("docker_image_policy\x7bstate=\"uri_err\"\x7d", 0),
          ("docker_image_policy\x7bstate=\"whitelist\"\x7d", 0)],
        ["# Prometheus metrics.\n" ++
          "docker_image_policy\x7bstate=\"allow\"\x7d 0\n" ++
          "docker_image_policy\x7bstate=\"blacklist\"\x7d 0\n" ++
          "docker_image_policy\x7bstate=\"block\"\x7d 0\n" ++
          "docker_image_policy\x7bstate=\"query_err\"\x7d 0\n" ++
          "docker_image_policy\x7bstate=\"uri_err\"\x7d 0\n" ++
          "docker_image_policy\x7bstate=\"whitelist\"\x7d 0\n"]) := by
  constructor <;> rfl

/-- C8: the text written by `metricsHandler` is the comment line
`# Prometheus metrics.` and a newline, followed by the lines `<label> <count>`
(count in decimal, each ended by a newline) of the entries in the order they
are visited: one line per entry of the map and nothing else. -/
theorem metricsHandler_exposition (m visit : GoMap) (h : visit.Perm m) :
    metricsHandler "" visit =
      "# Prometheus metrics.\n" ++
        String.join (visit.map (fun kv => kv.1 ++ " " ++ Nat.repr kv.2 ++ "\n")) ∧
    (visit.map entryLine).Perm (m.map entryLine) ∧
    (visit.map entryLine).length = m.length :=
  ⟨metricsHandler_eq visit, h.map _, by rw [List.length_map, h.length_eq]⟩

/-- C8 at a map with two entries visited in the other order. -/
theorem metricsHandler_exposition_witness :
    [("b", 0), ("a", 10)].Perm [("a", 10), ("b", 0)] ∧
    metricsHandler "" [("b", 0), ("a", 10)] =
      "# Prometheus metrics.\n" ++
        String.join ([("b", 0), ("a", 10)].map
          (fun kv : String × Nat => kv.1 ++ " " ++ Nat.repr kv.2 ++ "\n")) ∧
    "# Prometheus metrics.\n" ++
        String.join ([("b", 0), ("a", 10)].map
          (fun kv : String × Nat => kv.1 ++ " " ++ Nat.repr kv.2 ++ "\n")) =
      "# Prometheus metrics.\nb 0\na 10\n" :=
  ⟨List.Perm.swap _ _ _,
    (metricsHandler_exposition [("a", 10), ("b", 0)] [("b", 0), ("a", 10)]
      (List.Perm.swap _ _ _)).1, by decide⟩

/-- C9 fails on the code: a send on `metricsChan` has returned, the event is
still buffered and `metricsWg` is zero, so `metricsHandler` does not wait and
reports 0 for the label; once the counter goroutine has taken the event the
same request reports 1. -/
theorem metricsHandler_omits_buffered_event :
    (run 64 sysStart [Action.counter, Record labelAllow, Action.handler]).map
        (fun s => (s.metricsChan, s.metricsWg, mapLookup s.metrics labelAllow, s.responses)) =
      some ([[(labelAllow, 1)]], 0, some 0, [metricsHandler "" metricsInit]) ∧
    (run 64 sysStart [Action.counter, Record labelAllow, Action.counter, Action.counter,
        Action.counter, Action.counter, Action.handler]).map
        (fun s => (s.metricsChan, s.metricsWg, mapLookup s.metrics labelAllow, s.responses)) =
      some ([], 0, some 1, [metricsHandler "" (mapSet metricsInit labelAllow 1)]) := by
  constructor <;> rfl

/-- C10: processing two events in either order gives the same counter map (the
same read for every label, hence the same entries), and the map after a
sequence of events is the same for every reordering of the sequence. -/
theorem applyMetric_order_independent (bits : Nat) (m e1 e2 : GoMap) :
    (∀ k, mapLookup (applyMetric bits (applyMetric bits m e1) e2) k =
      mapLookup (applyMetric bits (applyMetric bits m e2) e1) k) ∧
    ((mapKeys m).Nodup →
      (applyMetric bits (applyMetric bits m e1) e2).Perm
        (applyMetric bits (applyMetric bits m e2) e1)) ∧
    (∀ evs evs' : List GoMap, evs.Perm evs' →
      ∀ k, mapLookup (metricsLoop bits m evs) k = mapLookup (metricsLoop bits m evs') k) := by
  have hswap : ∀ k, mapLookup (applyMetric bits (applyMetric bits m e1) e2) k =
      mapLookup (applyMetric bits (applyMetric bits m e2) e1) k :=
    fun k => mapLookup_metricsLoop_perm bits m (List.Perm.swap e2 e1 []) k
  refine ⟨hswap, fun hnd => ?_, fun evs evs' hperm k => mapLookup_metricsLoop_perm bits m hperm k⟩
  exact perm_of_mapLookup_eq
    (nodup_mapKeys_applyMetric bits e2 (nodup_mapKeys_applyMetric bits e1 hnd))
    (nodup_mapKeys_applyMetric bits e1 (nodup_mapKeys_applyMetric bits e2 hnd)) hswap

/-- C10 at the initialised map, an `allow` event and an event for a label that
is not seeded. -/
theorem applyMetric_order_independent_witness :
    (mapKeys metricsInit).Nodup ∧
    (applyMetric 64 (applyMetric 64 metricsInit [(labelAllow, 1)]) [("other", 2)]).Perm
      (applyMetric 64 (applyMetric 64 metricsInit [("other", 2)]) [(labelAllow, 1)]) ∧
    ([[("other", 2)], [(labelAllow, 1)]] : List GoMap).Perm
      [[(labelAllow, 1)], [("other", 2)]] ∧
    (∀ k, mapLookup (metricsLoop 64 metricsInit [[("other", 2)], [(labelAllow, 1)]]) k =
      mapLookup (metricsLoop 64 metricsInit [[(labelAllow, 1)], [("other", 2)]]) k) :=
  ⟨by decide,
    (applyMetric_order_independent 64 metricsInit [(labelAllow, 1)] [("other", 2)]).2.1
      (by decide),
    List.Perm.swap _ _ _,
    (applyMetric_order_independent 64 metricsInit [(labelAllow, 1)] [("other", 2)]).2.2
      _ _ (List.Perm.swap _ _ _)⟩

end ImagePolicy
